import Mathlib

/-!
Shallow embedding of the transformer notebook (multi-head self-attention,
transformer block, text-classification model) over the real numbers.
Tensors of shape [b, t, k] are modelled as functions Fin b → Fin t → Fin k → ℝ;
the fold of the head axis into the batch axis is modelled by indexing with a
separate Fin h argument, and the flattened projection axes of width k * h
(resp. h * k) by the row-major index bijection hi * k + ki.
-/

namespace DL20

/-- Row-major position of head `hi`, coordinate `ki` inside the flattened
projection axis of width `k * heads`, as produced by `view(b, t, h, k)`. -/
def foldIdx {h k : ℕ} (hi : Fin h) (ki : Fin k) : Fin (k * h) :=
  ⟨hi.val * k + ki.val, by
    have h3 : (hi.val + 1) * k ≤ h * k := Nat.mul_le_mul (Nat.succ_le_of_lt hi.isLt) (le_refl k)
    have h4 : (hi.val + 1) * k = hi.val * k + k := by ring
    have h5 : h * k = k * h := Nat.mul_comm h k
    omega⟩

/-- A PyTorch nn.Linear with bias: y = W x + bias, W of shape [dout, din]. -/
noncomputable def linear {din dout : ℕ} (W : Matrix (Fin dout) (Fin din) ℝ)
    (bias : Fin dout → ℝ) (v : Fin din → ℝ) : Fin dout → ℝ :=
  fun o => (∑ i, W o i * v i) + bias o

/-- A PyTorch nn.Linear without bias: y = W x, W of shape [dout, din]. -/
noncomputable def linearNoBias {din dout : ℕ} (W : Matrix (Fin dout) (Fin din) ℝ)
    (v : Fin din → ℝ) : Fin dout → ℝ :=
  fun o => ∑ i, W o i * v i

/-- Parameters of the SelfAttention module: three bias-free projections of
shape [k, k*heads] and the unifying projection (with bias) of shape [heads*k, k]. -/
structure SelfAttention (k heads : ℕ) where
  Wq : Matrix (Fin (k * heads)) (Fin k) ℝ
  Wk : Matrix (Fin (k * heads)) (Fin k) ℝ
  Wv : Matrix (Fin (k * heads)) (Fin k) ℝ
  unifyheads : Matrix (Fin k) (Fin (heads * k)) ℝ
  unifyheadsBias : Fin k → ℝ

/-- Queries tensor after projection, view(b, t, h, k) and folding heads into
the batch axis: entry [bi, hi, ti, ki] of the [b*h, t, k] tensor. -/
noncomputable def SelfAttention.queries {b t k h : ℕ} (p : SelfAttention k h)
    (x : Fin b → Fin t → Fin k → ℝ) : Fin b → Fin h → Fin t → Fin k → ℝ :=
  fun bi hi ti ki => linearNoBias p.Wq (x bi ti) (foldIdx hi ki)

/-- Keys tensor, folded like the queries. -/
noncomputable def SelfAttention.keys {b t k h : ℕ} (p : SelfAttention k h)
    (x : Fin b → Fin t → Fin k → ℝ) : Fin b → Fin h → Fin t → Fin k → ℝ :=
  fun bi hi ti ki => linearNoBias p.Wk (x bi ti) (foldIdx hi ki)

/-- Values tensor, folded like the queries. -/
noncomputable def SelfAttention.values {b t k h : ℕ} (p : SelfAttention k h)
    (x : Fin b → Fin t → Fin k → ℝ) : Fin b → Fin h → Fin t → Fin k → ℝ :=
  fun bi hi ti ki => linearNoBias p.Wv (x bi ti) (foldIdx hi ki)

/-- Raw attention scores w' = bmm(queries, keysᵗ) / sqrt(k), shape [b*h, t, t]. -/
noncomputable def SelfAttention.w_prime {b t k h : ℕ} (p : SelfAttention k h)
    (x : Fin b → Fin t → Fin k → ℝ) : Fin b → Fin h → Fin t → Fin t → ℝ :=
  fun bi hi ti tj => (∑ ki, p.queries x bi hi ti ki * p.keys x bi hi tj ki) / Real.sqrt k

/-- Softmax of a vector along its only axis: exp of each entry divided by the
sum of the exps (the value computed by F.softmax along the last dim). -/
noncomputable def softmax {n : ℕ} (v : Fin n → ℝ) : Fin n → ℝ :=
  fun i => Real.exp (v i) / ∑ j, Real.exp (v j)

/-- Maximum entry of a nonempty vector. -/
noncomputable def rowMax {n : ℕ} [NeZero n] (v : Fin n → ℝ) : ℝ :=
  Finset.univ.sup'
    (by
      haveI : Nonempty (Fin n) := ⟨⟨0, Nat.pos_of_ne_zero (NeZero.ne n)⟩⟩
      exact Finset.univ_nonempty) v

/-- Modelled from the spec: the numerically stable softmax, which subtracts the
row maximum from every entry before exponentiating. Stated separately from
`softmax` so that the two can be compared. -/
noncomputable def stableSoftmax {n : ℕ} [NeZero n] (v : Fin n → ℝ) : Fin n → ℝ :=
  fun i => Real.exp (v i - rowMax v) / ∑ j, Real.exp (v j - rowMax v)

/-- Attention weight tensor w = softmax(w', dim=-1), shape [b*h, t, t]. -/
noncomputable def SelfAttention.w {b t k h : ℕ} (p : SelfAttention k h)
    (x : Fin b → Fin t → Fin k → ℝ) : Fin b → Fin h → Fin t → Fin t → ℝ :=
  fun bi hi ti => softmax (p.w_prime x bi hi ti)

/-- Attention output out = bmm(w, values), shape [b*h, t, k]. -/
noncomputable def SelfAttention.out {b t k h : ℕ} (p : SelfAttention k h)
    (x : Fin b → Fin t → Fin k → ℝ) : Fin b → Fin h → Fin t → Fin k → ℝ :=
  fun bi hi ti ki => ∑ tj, p.w x bi hi ti tj * p.values x bi hi tj ki

/-- Row-major flattening of the trailing [h, k] axes into one axis of width
h * k, as done by transpose(1, 2).contiguous().view(b, t, h * k). -/
def flatten {h k : ℕ} (o : Fin h → Fin k → ℝ) : Fin (h * k) → ℝ :=
  fun j =>
    have hk : 0 < k := by
      have hpos : 0 < h * k := Nat.lt_of_le_of_lt (Nat.zero_le _) j.isLt
      rcases Nat.eq_zero_or_pos k with hk0 | hk0
      · rw [hk0, Nat.mul_zero] at hpos
        exact absurd hpos (lt_irrefl 0)
      · exact hk0
    o ⟨j.val / k, (Nat.div_lt_iff_lt_mul hk).mpr j.isLt⟩ ⟨j.val % k, Nat.mod_lt _ hk⟩

/-- SelfAttention.forward: unify the per-head outputs with the final biased
linear projection, returning a [b, t, k] tensor. -/
noncomputable def SelfAttention.forward {b t k h : ℕ} (p : SelfAttention k h)
    (x : Fin b → Fin t → Fin k → ℝ) : Fin b → Fin t → Fin k → ℝ :=
  fun bi ti =>
    linear p.unifyheads p.unifyheadsBias (flatten (fun hi ki => p.out x bi hi ti ki))

/-- The eps added by nn.LayerNorm to the variance before the square root. -/
noncomputable def layerNormEps : ℝ := 1 / 100000

/-- Mean of an embedding vector (the last axis of the tensor). -/
noncomputable def vecMean {k : ℕ} (v : Fin k → ℝ) : ℝ := (∑ i, v i) / (k : ℝ)

/-- Biased variance of an embedding vector, as used by nn.LayerNorm. -/
noncomputable def vecVar {k : ℕ} (v : Fin k → ℝ) : ℝ :=
  (∑ i, (v i - vecMean v) ^ 2) / (k : ℝ)

/-- nn.LayerNorm(k) on one embedding vector: center, divide by
sqrt(variance + eps), then apply the learned per-dimension scale and shift. -/
noncomputable def layerNorm {k : ℕ} (gamma beta : Fin k → ℝ) (v : Fin k → ℝ) :
    Fin k → ℝ :=
  fun i => (v i - vecMean v) / Real.sqrt (vecVar v + layerNormEps) * gamma i + beta i

/-- ReLU activation. -/
noncomputable def relu (x : ℝ) : ℝ := max x 0

/-- Parameters of a TransformerBlock: the attention module, the two layer
norms, and the two feed-forward linear layers of shapes [k, m] and [m, k]
where m is the hidden width n_mlp * k chosen at construction. -/
structure TransformerBlock (k heads m : ℕ) where
  attention : SelfAttention k heads
  norm1w : Fin k → ℝ
  norm1b : Fin k → ℝ
  norm2w : Fin k → ℝ
  norm2b : Fin k → ℝ
  ffW1 : Matrix (Fin m) (Fin k) ℝ
  ffB1 : Fin m → ℝ
  ffW2 : Matrix (Fin k) (Fin m) ℝ
  ffB2 : Fin k → ℝ

/-- The feed-forward sublayer nn.Sequential(Linear(k, m), ReLU(), Linear(m, k))
applied to one embedding vector. -/
noncomputable def TransformerBlock.ff {k h m : ℕ} (p : TransformerBlock k h m)
    (v : Fin k → ℝ) : Fin k → ℝ :=
  linear p.ffW2 p.ffB2 (fun j => relu (linear p.ffW1 p.ffB1 v j))

/-- TransformerBlock.forward: x1 = norm1(attention(x) + x), then
norm2(ff(x1) + x1), applied per position along the last axis. -/
noncomputable def TransformerBlock.forward {b t k h m : ℕ}
    (p : TransformerBlock k h m) (x : Fin b → Fin t → Fin k → ℝ) :
    Fin b → Fin t → Fin k → ℝ :=
  fun bi ti =>
    layerNorm p.norm2w p.norm2b (fun ki =>
      p.ff (layerNorm p.norm1w p.norm1b
        (fun kj => p.attention.forward x bi ti kj + x bi ti kj)) ki +
      layerNorm p.norm1w p.norm1b
        (fun kj => p.attention.forward x bi ti kj + x bi ti kj) ki)

/-- Parameters of the TextClassificationTransformer: token and position
embedding tables, the stacked transformer blocks, and the classification head. -/
structure TextClassificationTransformer (k heads m num_tokens max_seq_len num_classes : ℕ) where
  token_emb : Matrix (Fin num_tokens) (Fin k) ℝ
  pos_emb : Matrix (Fin max_seq_len) (Fin k) ℝ
  transformer_blocks : List (TransformerBlock k heads m)
  classification : Matrix (Fin num_classes) (Fin k) ℝ
  classificationBias : Fin num_classes → ℝ

/-- The nn.Sequential stack of transformer blocks, applied first to last. -/
noncomputable def applyBlocks {b t k h m : ℕ} (bs : List (TransformerBlock k h m))
    (x : Fin b → Fin t → Fin k → ℝ) : Fin b → Fin t → Fin k → ℝ :=
  bs.foldl (fun acc p => p.forward acc) x

/-- TextClassificationTransformer.forward: look up token embeddings (an id
out of [0, num_tokens) raises IndexError, modelled as none) and position
embeddings for positions 0..t-1 (t > max_seq_len also raises, modelled as
none), sum them, run the block stack, average over the time axis, then apply
the classification projection to produce the [b, num_classes] logits. -/
noncomputable def TextClassificationTransformer.forward {b t k h m V L C : ℕ}
    (p : TextClassificationTransformer k h m V L C)
    (ids : Fin b → Fin t → ℕ) : Option (Fin b → Fin C → ℝ) :=
  if hval : (∀ bi ti, ids bi ti < V) ∧ t ≤ L then
    some (fun bi =>
      linear p.classification p.classificationBias (fun ki =>
        (∑ ti, applyBlocks p.transformer_blocks
            (fun bj tj kj =>
              p.token_emb ⟨ids bj tj, hval.1 bj tj⟩ kj +
              p.pos_emb ⟨tj.val, lt_of_lt_of_le tj.isLt hval.2⟩ kj)
            bi ti ki) / (t : ℝ)))
  else none

/-- Constructor-level configuration of one TransformerBlock: the arguments of
TransformerBlock.__init__. -/
structure BlockConfig where
  k : ℕ
  heads : ℕ
  n_mlp : ℕ
deriving DecidableEq

/-- The default value of the n_mlp argument of TransformerBlock.__init__. -/
def defaultNMlp : ℕ := 4

/-- TransformerBlock.__init__ recording its three configuration arguments. -/
def TransformerBlock.mkConfig (k heads n_mlp : ℕ) : BlockConfig :=
  ⟨k, heads, n_mlp⟩

/-- Shapes (in, out) of the two linear layers of the block feed-forward:
Linear(k, n_mlp * k) followed by Linear(n_mlp * k, k). -/
def BlockConfig.ffShapes (c : BlockConfig) : (ℕ × ℕ) × (ℕ × ℕ) :=
  ((c.k, c.n_mlp * c.k), (c.n_mlp * c.k, c.k))

/-- Hidden width of the block feed-forward sublayer. -/
def BlockConfig.ffHiddenWidth (c : BlockConfig) : ℕ := c.n_mlp * c.k

/-- Block configurations built by TextClassificationTransformer.__init__:
depth copies of TransformerBlock(k=k, heads=heads), with n_mlp left at its
default because the classifier constructor takes no n_mlp argument. -/
def TextClassificationTransformer.initBlocks (k heads depth : ℕ) : List BlockConfig :=
  List.replicate depth (TransformerBlock.mkConfig k heads defaultNMlp)

/-- The sum of the exponentials of a vector with at least one entry is positive. -/
lemma sum_exp_pos {n : ℕ} (v : Fin n → ℝ) (i : Fin n) : 0 < ∑ j, Real.exp (v j) :=
  Finset.sum_pos (fun j _ => Real.exp_pos (v j)) ⟨i, Finset.mem_univ i⟩

/-- Over the reals, subtracting the row maximum before exponentiating does not
change the softmax: the numerically stable softmax equals the plain one. -/
lemma stableSoftmax_eq_softmax {n : ℕ} [NeZero n] (v : Fin n → ℝ) :
    stableSoftmax v = softmax v := by
  funext i
  have hi0 : Fin n := ⟨0, Nat.pos_of_ne_zero (NeZero.ne n)⟩
  have hM : Real.exp (rowMax v) ≠ 0 := Real.exp_ne_zero _
  simp only [stableSoftmax, softmax, Real.exp_sub]
  rw [← Finset.sum_div, div_div_div_comm, div_self hM, div_one]

/-- Claim C1: in SelfAttention.forward the raw scores per folded head-batch
element are queries * keysᵗ / sqrt(k), and the attention weight tensor equals
the numerically stable softmax (row maximum subtracted before exponentiating)
of each row of the scores along the last axis. -/
theorem C1_scores_and_stable_softmax {b t k h : ℕ} [NeZero t]
    (p : SelfAttention k h) (x : Fin b → Fin t → Fin k → ℝ)
    (bi : Fin b) (hi : Fin h) (ti tj : Fin t) :
    p.w_prime x bi hi ti tj =
      (∑ ki, p.queries x bi hi ti ki * p.keys x bi hi tj ki) / Real.sqrt k ∧
    p.w x bi hi ti tj = stableSoftmax (p.w_prime x bi hi ti) tj := by
  refine ⟨rfl, ?_⟩
  rw [stableSoftmax_eq_softmax]
  rfl

/-- Concrete all-zero SelfAttention parameters with k = 1, heads = 1. -/
noncomputable def saEx : SelfAttention 1 1 :=
  ⟨fun _ _ => 0, fun _ _ => 0, fun _ _ => 0, fun _ _ => 0, fun _ => 0⟩

/-- Concrete all-zero input of shape [1, 2, 1]. -/
noncomputable def xEx : Fin 1 → Fin 2 → Fin 1 → ℝ := fun _ _ _ => 0

/-- Witness for C1 at b = 1, t = 2, k = 1, heads = 1. -/
theorem C1_witness :
    saEx.w_prime xEx 0 0 0 0 =
      (∑ ki, saEx.queries xEx 0 0 0 ki * saEx.keys xEx 0 0 0 ki) / Real.sqrt ((1 : ℕ) : ℝ) ∧
    saEx.w xEx 0 0 0 0 = stableSoftmax (saEx.w_prime xEx 0 0 0 : Fin 2 → ℝ) 0 :=
  C1_scores_and_stable_softmax saEx xEx 0 0 0 0

/-- Claim C4: every row of the attention weight tensor computed inside
SelfAttention.forward is row-stochastic: all entries lie in [0, 1] and each
row sums to exactly 1. -/
theorem C4_row_stochastic {b t k h : ℕ} (p : SelfAttention k h)
    (x : Fin b → Fin t → Fin k → ℝ) (bi : Fin b) (hi : Fin h) (ti : Fin t) :
    (∀ tj, 0 ≤ p.w x bi hi ti tj ∧ p.w x bi hi ti tj ≤ 1) ∧
    (∑ tj, p.w x bi hi ti tj) = 1 := by
  have hS : (0 : ℝ) < ∑ j, Real.exp (p.w_prime x bi hi ti j) := sum_exp_pos _ ti
  constructor
  · intro tj
    constructor
    · exact div_nonneg (Real.exp_pos _).le hS.le
    · exact (div_le_one hS).mpr
        (Finset.single_le_sum (fun j _ => (Real.exp_pos (p.w_prime x bi hi ti j)).le)
          (Finset.mem_univ tj))
  · simp only [SelfAttention.w, softmax]
    rw [← Finset.sum_div, div_self (ne_of_gt hS)]

/-- Claim C2: TransformerBlock.forward returns Normalize2(f + x1) with
x1 = Normalize1(SelfAttention(x) + x) and f = FeedForward(x1); each residual
add happens before its normalization, and the output indexing [b, t, k]
matches the input's (the shapes agree by the type of the embedding). -/
theorem C2_block_residual_then_normalize {b t k h m : ℕ} (p : TransformerBlock k h m)
    (x : Fin b → Fin t → Fin k → ℝ) (bi : Fin b) (ti : Fin t) :
    p.forward x bi ti =
      layerNorm p.norm2w p.norm2b (fun ki =>
        p.ff (layerNorm p.norm1w p.norm1b
          (fun kj => p.attention.forward x bi ti kj + x bi ti kj)) ki +
        layerNorm p.norm1w p.norm1b
          (fun kj => p.attention.forward x bi ti kj + x bi ti kj) ki) := rfl

/-- Claim C6: for an input with a single position (t = 1), SelfAttention.forward
returns exactly the value projection of that position passed through the
unify-heads projection (a bias-shifted linear image of the values), because the
softmax over a single element is identically 1. -/
theorem C6_single_position {b k h : ℕ} (p : SelfAttention k h)
    (x : Fin b → Fin 1 → Fin k → ℝ) (bi : Fin b) (ti : Fin 1) (oi : Fin k) :
    p.forward x bi ti oi =
      linear p.unifyheads p.unifyheadsBias
        (flatten (fun hi ki => p.values x bi hi ti ki)) oi := by
  have hout : (fun hi ki => p.out x bi hi ti ki) =
      (fun hi ki => p.values x bi hi ti ki) := by
    funext hi ki
    simp only [SelfAttention.out]
    rw [Fin.sum_univ_one]
    have hw : p.w x bi hi ti 0 = 1 := by
      simp only [SelfAttention.w, softmax]
      rw [Fin.sum_univ_one]
      have h0 : (0 : Fin 1) = ti := Subsingleton.elim _ _
      rw [h0]
      exact div_self (Real.exp_ne_zero _)
    have h0 : (0 : Fin 1) = ti := Subsingleton.elim _ _
    rw [hw, one_mul, h0]
  simp only [SelfAttention.forward]
  rw [hout]

/-- Permuting the positions of the input permutes the raw attention scores on
both row and column, definitionally. -/
lemma w_prime_perm {b t k h : ℕ} (p : SelfAttention k h)
    (x : Fin b → Fin t → Fin k → ℝ) (σ : Equiv.Perm (Fin t))
    (bi : Fin b) (hi : Fin h) (ti tj : Fin t) :
    p.w_prime (fun bj tl => x bj (σ tl)) bi hi ti tj = p.w_prime x bi hi (σ ti) (σ tj) :=
  rfl

/-- Permuting the positions of the input permutes row and column of the
attention weight tensor. -/
lemma w_perm {b t k h : ℕ} (p : SelfAttention k h)
    (x : Fin b → Fin t → Fin k → ℝ) (σ : Equiv.Perm (Fin t))
    (bi : Fin b) (hi : Fin h) (ti tj : Fin t) :
    p.w (fun bj tl => x bj (σ tl)) bi hi ti tj = p.w x bi hi (σ ti) (σ tj) := by
  have hden : (∑ j, Real.exp (p.w_prime (fun bj tl => x bj (σ tl)) bi hi ti j)) =
      ∑ j, Real.exp (p.w_prime x bi hi (σ ti) j) := by
    calc (∑ j, Real.exp (p.w_prime (fun bj tl => x bj (σ tl)) bi hi ti j))
        = ∑ j, Real.exp (p.w_prime x bi hi (σ ti) (σ j)) := rfl
      _ = ∑ j, Real.exp (p.w_prime x bi hi (σ ti) j) :=
          Equiv.sum_comp σ (fun j => Real.exp (p.w_prime x bi hi (σ ti) j))
  simp only [SelfAttention.w, softmax]
  rw [hden]
  rfl

/-- Permuting the positions of the input permutes the position axis of the
per-head attention output. -/
lemma out_perm {b t k h : ℕ} (p : SelfAttention k h)
    (x : Fin b → Fin t → Fin k → ℝ) (σ : Equiv.Perm (Fin t))
    (bi : Fin b) (hi : Fin h) (ti : Fin t) (ki : Fin k) :
    p.out (fun bj tl => x bj (σ tl)) bi hi ti ki = p.out x bi hi (σ ti) ki := by
  simp only [SelfAttention.out]
  calc (∑ tj, p.w (fun bj tl => x bj (σ tl)) bi hi ti tj *
          p.values (fun bj tl => x bj (σ tl)) bi hi tj ki)
      = ∑ tj, p.w x bi hi (σ ti) (σ tj) * p.values x bi hi (σ tj) ki := by
        refine Finset.sum_congr rfl (fun tj _ => ?_)
        rw [w_perm]
        exact rfl
    _ = ∑ tj, p.w x bi hi (σ ti) tj * p.values x bi hi tj ki :=
        Equiv.sum_comp σ (fun tj => p.w x bi hi (σ ti) tj * p.values x bi hi tj ki)

/-- Claim C7: SelfAttention is permutation-equivariant: on the
position-permuted input the attention weight tensor is the original one with
rows and columns permuted by the permutation, and the output sequence is the
original output permuted, so attention weights change correspondingly rather
than staying fixed. -/
theorem C7_permutation_equivariant {b t k h : ℕ} (p : SelfAttention k h)
    (x : Fin b → Fin t → Fin k → ℝ) (σ : Equiv.Perm (Fin t))
    (bi : Fin b) (hi : Fin h) (ti tj : Fin t) (oi : Fin k) :
    p.w (fun bj tl => x bj (σ tl)) bi hi ti tj = p.w x bi hi (σ ti) (σ tj) ∧
    p.forward (fun bj tl => x bj (σ tl)) bi ti oi = p.forward x bi (σ ti) oi := by
  refine ⟨w_perm p x σ bi hi ti tj, ?_⟩
  have hfun : (fun hi2 ki => p.out (fun bj tl => x bj (σ tl)) bi hi2 ti ki) =
      (fun hi2 ki => p.out x bi hi2 (σ ti) ki) := by
    funext hi2 ki
    exact out_perm p x σ bi hi2 ti ki
  simp only [SelfAttention.forward]
  rw [hfun]

/-- Claim C3: on a valid token-id batch (all ids below num_tokens, sequence
length at most max_seq_len) the classifier forward produces logits equal to
the elementwise sum of token and position embeddings fed through the block
stack in order, averaged over the time axis, then mapped by the final linear
projection to the [b, num_classes] logits; the empty stack (depth 0) is the
identity. -/
theorem C3_classifier_pipeline {b t k h m V L C : ℕ}
    (p : TextClassificationTransformer k h m V L C) (ids : Fin b → Fin t → ℕ)
    (hids : ∀ bi ti, ids bi ti < V) (ht : t ≤ L) :
    p.forward ids =
      some (fun bi =>
        linear p.classification p.classificationBias (fun ki =>
          (∑ ti, applyBlocks p.transformer_blocks
              (fun bj tj kj =>
                p.token_emb ⟨ids bj tj, hids bj tj⟩ kj +
                p.pos_emb ⟨tj.val, lt_of_lt_of_le tj.isLt ht⟩ kj)
              bi ti ki) / (t : ℝ))) ∧
    (∀ e : Fin b → Fin t → Fin k → ℝ,
      applyBlocks ([] : List (TransformerBlock k h m)) e = e) := by
  refine ⟨?_, fun e => rfl⟩
  unfold TextClassificationTransformer.forward
  rw [dif_pos (⟨hids, ht⟩ : (∀ bi ti, ids bi ti < V) ∧ t ≤ L)]

/-- Concrete classifier parameters: k = 1, heads = 1, hidden 1, num_tokens = 2,
max_seq_len = 1, num_classes = 2, empty block stack, all weights zero. -/
noncomputable def clsEx : TextClassificationTransformer 1 1 1 2 1 2 :=
  ⟨fun _ _ => 0, fun _ _ => 0, [], fun _ _ => 0, fun _ => 0⟩

/-- Concrete in-range token ids for a [1, 1] batch. -/
def idsEx : Fin 1 → Fin 1 → ℕ := fun _ _ => 0

/-- Concrete out-of-range token ids: the id equals num_tokens = 2. -/
def idsBadEx : Fin 1 → Fin 1 → ℕ := fun _ _ => 2

/-- Witness for C3 at b = 1, t = 1 against clsEx. -/
theorem C3_witness :
    ((∀ bi ti : Fin 1, idsEx bi ti < 2) ∧ 1 ≤ 1) ∧
    (clsEx.forward idsEx =
      some (fun bi =>
        linear clsEx.classification clsEx.classificationBias (fun ki =>
          (∑ ti, applyBlocks clsEx.transformer_blocks
              (fun bj tj kj =>
                clsEx.token_emb ⟨idsEx bj tj, by simp [idsEx]⟩ kj +
                clsEx.pos_emb ⟨tj.val, lt_of_lt_of_le tj.isLt (le_refl 1)⟩ kj)
              bi ti ki) / ((1 : ℕ) : ℝ))) ∧
     (∀ e : Fin 1 → Fin 1 → Fin 1 → ℝ,
       applyBlocks ([] : List (TransformerBlock 1 1 1)) e = e)) :=
  ⟨⟨fun _ _ => by simp [idsEx], le_refl 1⟩,
   C3_classifier_pipeline clsEx idsEx (fun _ _ => by simp [idsEx]) (le_refl 1)⟩

/-- Claim C5: the classifier forward fails (no logits) whenever some token id
is at least num_tokens — in particular an id equal to num_tokens is rejected,
not wrapped or clamped — or the sequence length exceeds max_seq_len. -/
theorem C5_out_of_range_rejected {b t k h m V L C : ℕ}
    (p : TextClassificationTransformer k h m V L C) (ids : Fin b → Fin t → ℕ)
    (hbad : (∃ bi ti, V ≤ ids bi ti) ∨ L < t) :
    p.forward ids = none := by
  unfold TextClassificationTransformer.forward
  rw [dif_neg]
  rintro ⟨hall, hlen⟩
  rcases hbad with ⟨bi, ti, hge⟩ | hlt
  · exact absurd (hall bi ti) (not_lt.mpr hge)
  · omega

/-- Witness for C5: the id 2 equals num_tokens = 2 and the call fails. -/
theorem C5_witness :
    ((∃ bi ti : Fin 1, 2 ≤ idsBadEx bi ti) ∨ 1 < 1) ∧ clsEx.forward idsBadEx = none :=
  ⟨Or.inl ⟨0, 0, by simp [idsBadEx]⟩,
   C5_out_of_range_rejected clsEx idsBadEx (Or.inl ⟨0, 0, by simp [idsBadEx]⟩)⟩

/-- SelfAttention.forward at example bi reads only row bi of the input. -/
lemma saForward_congr_example {b t k h : ℕ} (p : SelfAttention k h)
    (x x' : Fin b → Fin t → Fin k → ℝ) (bi : Fin b) (hx : x bi = x' bi) :
    p.forward x bi = p.forward x' bi := by
  funext ti oi
  simp only [SelfAttention.forward, linear, flatten, SelfAttention.out,
    SelfAttention.w, softmax, SelfAttention.w_prime, SelfAttention.queries,
    SelfAttention.keys, SelfAttention.values, linearNoBias, hx]

/-- TransformerBlock.forward at example bi reads only row bi of the input. -/
lemma blockForward_congr_example {b t k h m : ℕ} (p : TransformerBlock k h m)
    (x x' : Fin b → Fin t → Fin k → ℝ) (bi : Fin b) (hx : x bi = x' bi) :
    p.forward x bi = p.forward x' bi := by
  funext ti
  have hsa := saForward_congr_example p.attention x x' bi hx
  simp only [TransformerBlock.forward, hsa, hx]

/-- The block stack at example bi reads only row bi of the input. -/
lemma applyBlocks_congr_example {b t k h m : ℕ} (bs : List (TransformerBlock k h m))
    (x x' : Fin b → Fin t → Fin k → ℝ) (bi : Fin b) (hx : x bi = x' bi) :
    applyBlocks bs x bi = applyBlocks bs x' bi := by
  induction bs generalizing x x' with
  | nil => exact hx
  | cons p bs ih =>
      simp only [applyBlocks, List.foldl_cons]
      exact ih (p.forward x) (p.forward x') (blockForward_congr_example p x x' bi hx)

/-- Claim C9: no cross-example leakage. If two batched inputs agree on example
bi then SelfAttention.forward agrees on example bi, and if two valid token-id
batches agree on example bi then the classifier logits agree on example bi,
however the other examples differ. -/
theorem C9_no_cross_example_leakage {b t k h m V L C : ℕ}
    (q : SelfAttention k h) (x x' : Fin b → Fin t → Fin k → ℝ)
    (p : TextClassificationTransformer k h m V L C) (ids ids' : Fin b → Fin t → ℕ)
    (bi : Fin b) (hx : x bi = x' bi) (hids : ∀ ti, ids bi ti = ids' bi ti)
    (hv : ∀ bj tj, ids bj tj < V) (hv' : ∀ bj tj, ids' bj tj < V) (ht : t ≤ L) :
    q.forward x bi = q.forward x' bi ∧
    ∃ logits logits',
      p.forward ids = some logits ∧ p.forward ids' = some logits' ∧
      logits bi = logits' bi := by
  refine ⟨saForward_congr_example q x x' bi hx,
    (fun bj => linear p.classification p.classificationBias (fun ki =>
      (∑ ti, applyBlocks p.transformer_blocks
          (fun bj2 tj kj =>
            p.token_emb ⟨ids bj2 tj, hv bj2 tj⟩ kj +
            p.pos_emb ⟨tj.val, lt_of_lt_of_le tj.isLt ht⟩ kj)
          bj ti ki) / (t : ℝ))),
    (fun bj => linear p.classification p.classificationBias (fun ki =>
      (∑ ti, applyBlocks p.transformer_blocks
          (fun bj2 tj kj =>
            p.token_emb ⟨ids' bj2 tj, hv' bj2 tj⟩ kj +
            p.pos_emb ⟨tj.val, lt_of_lt_of_le tj.isLt ht⟩ kj)
          bj ti ki) / (t : ℝ))),
    ?_, ?_, ?_⟩
  · unfold TextClassificationTransformer.forward
    rw [dif_pos (⟨hv, ht⟩ : (∀ bj tj, ids bj tj < V) ∧ t ≤ L)]
  · unfold TextClassificationTransformer.forward
    rw [dif_pos (⟨hv', ht⟩ : (∀ bj tj, ids' bj tj < V) ∧ t ≤ L)]
  · have hA : applyBlocks p.transformer_blocks
        (fun bj2 tj kj =>
          p.token_emb ⟨ids bj2 tj, hv bj2 tj⟩ kj +
          p.pos_emb ⟨tj.val, lt_of_lt_of_le tj.isLt ht⟩ kj) bi =
      applyBlocks p.transformer_blocks
        (fun bj2 tj kj =>
          p.token_emb ⟨ids' bj2 tj, hv' bj2 tj⟩ kj +
          p.pos_emb ⟨tj.val, lt_of_lt_of_le tj.isLt ht⟩ kj) bi := by
      apply applyBlocks_congr_example
      funext tj kj
      have h1 : (⟨ids bi tj, hv bi tj⟩ : Fin V) = ⟨ids' bi tj, hv' bi tj⟩ :=
        Fin.ext (hids tj)
      rw [h1]
    simp only [hA]

/-- Concrete [2, 1] all-zero real input. -/
noncomputable def x2Ex : Fin 2 → Fin 1 → Fin 1 → ℝ := fun _ _ _ => 0

/-- Concrete token-id batch of two examples, both id 0. -/
def ids2Ex : Fin 2 → Fin 1 → ℕ := fun _ _ => 0

/-- Concrete token-id batch agreeing with ids2Ex on example 0 only. -/
def ids2Ex' : Fin 2 → Fin 1 → ℕ := fun bj _ => bj.val

/-- Witness for C9: two valid batches agree on example 0 and differ on
example 1; attention outputs and logits agree on example 0. -/
theorem C9_witness :
    (x2Ex 0 = x2Ex 0) ∧ (∀ ti, ids2Ex 0 ti = ids2Ex' 0 ti) ∧
    (∀ bj tj, ids2Ex bj tj < 2) ∧ (∀ bj tj, ids2Ex' bj tj < 2) ∧ (1 ≤ 1) ∧
    (saEx.forward x2Ex 0 = saEx.forward x2Ex 0 ∧
     ∃ logits logits',
       clsEx.forward ids2Ex = some logits ∧ clsEx.forward ids2Ex' = some logits' ∧
       logits 0 = logits' 0) :=
  ⟨rfl, by decide, by decide, by decide, le_refl 1,
   C9_no_cross_example_leakage saEx x2Ex x2Ex clsEx ids2Ex ids2Ex' 0 rfl
     (by decide) (by decide) (by decide) (le_refl 1)⟩

/-- Counterexample to claim C8: TextClassificationTransformer.__init__ takes
no n_mlp argument, so every block it builds keeps the default expansion factor
4; for k = 3 the single block of a depth-1 classifier has feed-forward hidden
width 12, and a configured n_mlp = 2 (hidden width 6) is never produced. -/
theorem C8_counterexample :
    (TextClassificationTransformer.initBlocks 3 8 1).map BlockConfig.ffHiddenWidth = [12] ∧
    (∀ c ∈ TextClassificationTransformer.initBlocks 3 8 1, c.n_mlp = 4) ∧
    ¬ (∀ c ∈ TextClassificationTransformer.initBlocks 3 8 1,
        BlockConfig.ffHiddenWidth c = 2 * 3) := by
  decide

/-- Claim C8 as amended: n_mlp is a construction-time parameter of
TransformerBlock with default 4, the classifier constructor does not expose it
and builds every block with n_mlp = 4, and for every n_mlp > 0 a block
constructed with that n_mlp has a feed-forward of two linear projections —
Linear(k, n_mlp * k) then Linear(n_mlp * k, k) — with a rectifying activation
between them. -/
theorem C8_block_n_mlp {k heads n_mlp : ℕ} (hpos : 0 < n_mlp) :
    (TransformerBlock.mkConfig k heads n_mlp).ffShapes =
      ((k, n_mlp * k), (n_mlp * k, k)) ∧
    (TransformerBlock.mkConfig k heads n_mlp).ffHiddenWidth = n_mlp * k ∧
    defaultNMlp = 4 ∧
    (∀ depth, ∀ c ∈ TextClassificationTransformer.initBlocks k heads depth,
      c = TransformerBlock.mkConfig k heads 4) ∧
    (∀ (m2 : ℕ) (p : TransformerBlock k heads m2) (v : Fin k → ℝ) (j : Fin k),
      p.ff v j = linear p.ffW2 p.ffB2 (fun i => relu (linear p.ffW1 p.ffB1 v i)) j) := by
  refine ⟨rfl, rfl, rfl, ?_, fun m2 p v j => rfl⟩
  intro depth c hc
  exact List.eq_of_mem_replicate hc

/-- Witness for C8 as amended, at n_mlp = 2, k = 3, heads = 8. -/
theorem C8_witness :
    0 < 2 ∧
    ((TransformerBlock.mkConfig 3 8 2).ffShapes = ((3, 2 * 3), (2 * 3, 3)) ∧
     (TransformerBlock.mkConfig 3 8 2).ffHiddenWidth = 2 * 3 ∧
     defaultNMlp = 4 ∧
     (∀ depth, ∀ c ∈ TextClassificationTransformer.initBlocks 3 8 depth,
       c = TransformerBlock.mkConfig 3 8 4) ∧
     (∀ (m2 : ℕ) (p : TransformerBlock 3 8 m2) (v : Fin 3 → ℝ) (j : Fin 3),
       p.ff v j = linear p.ffW2 p.ffB2 (fun i => relu (linear p.ffW1 p.ffB1 v i)) j)) :=
  ⟨by decide, C8_block_n_mlp (by decide)⟩

/-- Mean of a constant embedding vector of positive dimension. -/
lemma vecMean_const {k : ℕ} (hk : 0 < k) (c : ℝ) :
    vecMean (fun _ : Fin k => c) = c := by
  have hk' : (k : ℝ) ≠ 0 := Nat.cast_ne_zero.mpr (Nat.pos_iff_ne_zero.mp hk)
  simp only [vecMean, Finset.sum_const, Finset.card_univ, Fintype.card_fin,
    nsmul_eq_mul]
  field_simp

/-- Claim C10: the layer normalization of the transformer block is total: the
variance is nonnegative, offsetting it by the positive eps makes the
square-root denominator positive for every finite input — including a constant
vector, whose variance is zero, on which the normalization returns the learned
shift — so no division by zero can occur in TransformerBlock.forward. -/
theorem C10_layernorm_total {k : ℕ} (v : Fin k → ℝ) (c : ℝ)
    (gamma beta : Fin k → ℝ) :
    0 ≤ vecVar v ∧ 0 < vecVar v + layerNormEps ∧
    0 < Real.sqrt (vecVar v + layerNormEps) ∧
    vecVar (fun _ : Fin k => c) = 0 ∧
    (∀ i : Fin k, layerNorm gamma beta (fun _ => c) i = beta i) := by
  have heps : (0 : ℝ) < layerNormEps := by norm_num [layerNormEps]
  have hvar : 0 ≤ vecVar v :=
    div_nonneg (Finset.sum_nonneg fun i _ => sq_nonneg _) (Nat.cast_nonneg k)
  have hpos : 0 < vecVar v + layerNormEps := add_pos_of_nonneg_of_pos hvar heps
  have hconst : vecVar (fun _ : Fin k => c) = 0 := by
    rcases Nat.eq_zero_or_pos k with hk | hk
    · subst hk
      simp [vecVar]
    · simp [vecVar, vecMean_const hk]
  refine ⟨hvar, hpos, Real.sqrt_pos.mpr hpos, hconst, ?_⟩
  intro i
  have hk : 0 < k := i.pos
  simp [layerNorm, vecMean_const hk]

end DL20
